import Mathlib

/-!
A verification development for the website-url-crawler repository
(src/static.py and src/dynamic.py).  The two near-duplicate crawler
variants are embedded shallowly: URLs are lists of characters, the
Python string operations used by the source are re-implemented as
executable Lean functions, the browser is an oracle (`World`) supplying
per-URL outcomes, and the two recursive crawlers `crawl` (static.py)
and `crawl_spa` (dynamic.py) are instances of one parametric engine
`crawlGen` whose recursion is driven by the fuel `max_depth + 1 - depth`.
The fuel is exact, not an approximation: the source's own guard
`depth > max_depth` returns before the fuel can reach zero on any call
that would otherwise recurse (see `crawlGen_fuel_irrel`).
-/

/-- A URL (or any Python string) is modelled as its list of characters. -/
abbrev Url := List Char

/-- Python `s.startswith(p)`: `p` is a prefix of `s`. -/
def startswith : Url → Url → Bool
  | _, [] => true
  | [], _ :: _ => false
  | c :: cs, p :: ps => c == p && startswith cs ps

/-- Python `needle in hay` on strings: substring containment. -/
def pyIn (needle : Url) : Url → Bool
  | [] => startswith [] needle
  | c :: t => startswith (c :: t) needle || pyIn needle t

/-- Python `link.split('#')[0]`: everything before the first `#`
(the whole string when there is no `#`, matching the source's
`if '#' in link` guard which leaves such strings unchanged). -/
def splitHash (l : Url) : Url := l.takeWhile (fun c => c != '#')

/-- Python `link.rstrip('/')`: remove every trailing slash. -/
def rstripSlash (l : Url) : Url := (l.reverse.dropWhile (fun c => c == '/')).reverse

/-- The scheme part of a URL: the characters before the first `:`. -/
def schemeOf (l : Url) : Url := l.takeWhile (fun c => c != ':')

/-- Python `urljoin(base_url, link)` as used by static.py: `base_url` is
always the `scheme://netloc` origin computed by `main` and `link` always
starts with `/` at the call site.  A `//`-prefixed link is a network-path
reference keeping only the scheme; otherwise the path is appended. -/
def urljoin (base link : Url) : Url :=
  if startswith link ['/', '/'] = true then schemeOf base ++ ':' :: link
  else base ++ link

/-- Valid characters of a URL scheme after the first, as accepted by
Python's `urlparse`. -/
def isSchemeChar (c : Char) : Bool := c.isAlphanum || c == '+' || c == '-' || c == '.'

/-- The `f"{parsed.scheme}://{parsed.netloc}"` origin string both `main`
functions compute with `urlparse(start_url)`.  Modelled for the URL shapes
`urlparse` handles: a valid scheme is lowercased, the netloc is the part
between `//` and the next `/`, `?` or `#`; without a valid scheme both
parts are empty and the result is the literal `"://"`. -/
def urlOrigin (u : Url) : Url :=
  let scheme := schemeOf u
  if scheme.length < u.length ∧ scheme ≠ [] ∧
      (scheme.headD 'x').isAlpha ∧ scheme.all isSchemeChar then
    let rest := u.drop (scheme.length + 1)
    let netloc :=
      if startswith rest ['/', '/'] = true then
        (rest.drop 2).takeWhile (fun c => c != '/' && c != '?' && c != '#')
      else []
    (scheme.map Char.toLower) ++ ':' :: '/' :: '/' :: netloc
  else ':' :: '/' :: '/' :: []

/-- Python `list(set(xs))` / a JavaScript `Set` materialized as an array:
deduplication.  The iteration order of a Python `set` is unspecified; the
embedding fixes the deterministic order of `List.dedup` (membership, not
order, is what every claim uses). -/
def pySet (l : List Url) : List Url := l.dedup

/-- The per-link normalization loop body of
`extract_links_comprehensive` (static.py lines 94-111): a `/`-relative
link is resolved against the base origin, a non-`http` link is skipped,
the fragment is stripped, trailing slashes are stripped. -/
def normalize_link (base link : Url) : Option Url :=
  if startswith link ['/'] = true then
    some (rstripSlash (splitHash (urljoin base link)))
  else if startswith link ['h', 't', 't', 'p'] = true then
    some (rstripSlash (splitHash link))
  else none

/-- `extract_links_comprehensive` (static.py lines 67-113).  The raw
strings harvested by the in-browser script (anchor hrefs and data
attributes) are the oracle input `raws`; the Python normalization loop
and the final `list(set(...))` are embedded. -/
def extract_links_comprehensive (raws : List Url) (base_url : Url) : List Url :=
  pySet (raws.filterMap (fun link => normalize_link base_url link))

/-- The absolutization step of the in-page script of `extract_spa_links`
(dynamic.py lines 145-148). -/
def spaAbsolutize (base_url link : Url) : Url :=
  if startswith link ['h', 't', 't', 'p'] = true then link
  else if startswith link ['/'] = true then base_url ++ link
  else base_url ++ '/' :: link

/-- The filter of the in-page script of `extract_spa_links` (dynamic.py
lines 149-155): keep same-prefix links without `#` or `?` that are not
the bare origin. -/
def spaLinkFilter (base_url link : Url) : Bool :=
  startswith link base_url && !(decide ('#' ∈ link)) && !(decide ('?' ∈ link)) &&
    !(decide (link = base_url)) && !(decide (link = base_url ++ ['/']))

/-- The value returned by the in-page script of `extract_spa_links`
(dynamic.py lines 104-159): the harvested raw strings (hrefs, data
attributes, onclick paths, script literals — the oracle input `harvest`)
are deduplicated, absolutized, filtered, and deduplicated again. -/
def extract_spa_links_js (harvest : List Url) (base_url : Url) : List Url :=
  pySet (((pySet harvest).map (spaAbsolutize base_url)).filter
    (fun l => spaLinkFilter base_url l))

/-- Python `s.replace('//', '/')` as called on `potential_url` in
`extract_spa_links` (dynamic.py line 175): left-to-right, non-overlapping
replacement of every `//` by `/`. -/
def replaceDoubleSlash : Url → Url
  | [] => []
  | [c] => [c]
  | c1 :: c2 :: t =>
    if c1 = '/' ∧ c2 = '/' then '/' :: replaceDoubleSlash t
    else c1 :: replaceDoubleSlash (c2 :: t)

/-- The Python-side route harvesting of `extract_spa_links` (dynamic.py
lines 161-177).  `mts` stands for the strings produced by `re.findall`
with the three route patterns; each pattern's capture group is the class
of word characters, dashes and slashes, so a match never contains a
quote, a space, a `#` or a `?`. -/
def spa_route_candidates (base_url : Url) (mts : List Url) : List Url :=
  mts.filterMap (fun mt =>
    if mt ≠ [] ∧ startswith mt ['h', 't', 't', 'p'] = false then
      if startswith (replaceDoubleSlash (base_url ++ '/' :: mt)) base_url = true then
        some (replaceDoubleSlash (base_url ++ '/' :: mt))
      else none
    else none)

/-- `extract_spa_links` (dynamic.py lines 100-181): the in-page script
result, extended by the regex route candidates, returned as
`list(set(links))`. -/
def extract_spa_links (harvest mts : List Url) (base_url : Url) : List Url :=
  pySet (extract_spa_links_js harvest base_url ++ spa_route_candidates base_url mts)

/-- The page metadata the visitor's `page.evaluate` returns on success
(title/description via the selector fallback chains; `hasContent` is the
SPA variant's body-text-length test, unused by the static variant). -/
structure PageInfo where
  title : Url
  description : Url
  hasContent : Bool
deriving DecidableEq

/-- One sitemap entry.  Python appends dicts with optional keys, so the
keys present only on some records (`hasContent`, `error`, `timestamp`)
are `Option`-valued: `none` means the key is absent. -/
structure PageRecord where
  url : Url
  title : Url
  description : Url
  depth : Nat
  hasContent : Option Bool
  error : Option Bool
  timestamp : Option Nat
deriving DecidableEq

/-- The browser oracle: per-URL outcomes of the opaque playwright calls.
`visitOk u` — navigation, readiness waiting and the metadata
`page.evaluate` all succeed on `u`; `extractOk u` — the later
link-extraction `page.evaluate` also succeeds; `errmsg u` — the `str(e)`
of the exception otherwise; `rawLinks u` — the raw strings the in-page
harvesting script collects on `u`; `routeMatches u` — the `re.findall`
route matches over `page.content()` (dynamic.py only). -/
structure World where
  visitOk : Url → Bool
  extractOk : Url → Bool
  info : Url → PageInfo
  errmsg : Url → Url
  rawLinks : Url → List Url
  routeMatches : Url → List Url

/-- The process-wide mutable state of a crawl run: the `visited` set and
`sitemap` list of the source, plus two ghost instrumentation fields —
`visits` records each invocation of the page visitor (the body executed
after the guard) and `childCounts` records the length of each per-page
child list the recursion loop iterates over — and a logical clock `now`
standing for `time.time()`. -/
structure CrawlState where
  visited : List Url
  sitemap : List PageRecord
  visits : List Url
  childCounts : List Nat
  now : Nat
deriving DecidableEq

/-- The empty state both scripts start from (module-level
`visited = set()`, `sitemap = []`). -/
def initState : CrawlState :=
  { visited := [], sitemap := [], visits := [], childCounts := [], now := 0 }

/-- The success record of static.py (lines 172-177): no `hasContent`, no
`error`, no `timestamp` key. -/
def staticOkRec (u : Url) (d : Nat) (i : PageInfo) (_t : Nat) : PageRecord :=
  { url := u, title := i.title, description := i.description, depth := d,
    hasContent := none, error := none, timestamp := none }

/-- The error record of static.py (lines 191-197). -/
def staticErrRec (u : Url) (d : Nat) (e : Url) (_t : Nat) : PageRecord :=
  { url := u, title := ['E','r','r','o','r',' ','l','o','a','d','i','n','g',' ','p','a','g','e'],
    description := e, depth := d, hasContent := none, error := some true, timestamp := none }

/-- The success record of dynamic.py (lines 292-299): carries
`hasContent` and `timestamp`. -/
def spaOkRec (u : Url) (d : Nat) (i : PageInfo) (t : Nat) : PageRecord :=
  { url := u, title := i.title, description := i.description, depth := d,
    hasContent := some i.hasContent, error := none, timestamp := some t }

/-- The error record of dynamic.py (lines 314-321): carries `timestamp`. -/
def spaErrRec (u : Url) (d : Nat) (e : Url) (t : Nat) : PageRecord :=
  { url := u, title := ['E','r','r','o','r',' ','l','o','a','d','i','n','g',' ','p','a','g','e'],
    description := e, depth := d, hasContent := none, error := some true, timestamp := some t }

/-- What distinguishes the two crawler variants: how records are built,
how the extracted links are turned into the child list the loop iterates
over (`pick visited links`), and which extractor is used. -/
structure Variant where
  mkOk : Url → Nat → PageInfo → Nat → PageRecord
  mkErr : Url → Nat → Url → Nat → PageRecord
  pick : List Url → List Url → List Url
  getLinks : World → Url → Url → List Url

/-- dynamic.py line 303: `[link for link in set(links) if link not in visited]`. -/
def spa_unique_links (visitedL : List Url) (links : List Url) : List Url :=
  (pySet links).filter (fun l => decide (l ∉ visitedL))

/-- The shared recursive crawl engine (static.py `crawl` lines 135-200,
dynamic.py `crawl_spa` lines 236-324).  Fuel is `max_depth + 1 - depth`;
the guard `m < depth` of the source fires before the fuel can run out,
so the `0` case is unreachable on the wrappers below (`crawlGen_fuel_irrel`).
Control flow per call: guard (visited / prefix scope / depth), insert
into `visited`, visit the page; on success append the success record,
extract links, and for each picked child with
`link not in visited and base_url in link` recurse at `depth + 1`; any
failure during visiting appends the error record, and a failure during
extraction appends it after the already-appended success record, ending
the call without recursion.  The successive mutations of the source are
flattened into one record literal per branch (the two consecutive sitemap
appends of a visit-then-failed-extraction become one two-element append;
`now` advances once per `time.time()` read). -/
def crawlGen (V : Variant) (w : World) (b : Url) (m : Nat) :
    Nat → Url → Nat → CrawlState → CrawlState
  | 0, _, _, s => s
  | fuel + 1, url, depth, s =>
    if url ∈ s.visited ∨ startswith url b = false ∨ m < depth then s
    else if w.visitOk url = true then
      if w.extractOk url = true then
        List.foldl
          (fun acc l =>
            if l ∉ acc.visited ∧ pyIn b l = true then
              crawlGen V w b m fuel l (depth + 1) acc
            else acc)
          ⟨url :: s.visited, s.sitemap ++ [V.mkOk url depth (w.info url) s.now],
            s.visits ++ [url],
            s.childCounts ++ [(V.pick (url :: s.visited) (V.getLinks w b url)).length],
            s.now + 1⟩
          (V.pick (url :: s.visited) (V.getLinks w b url))
      else
        ⟨url :: s.visited,
          s.sitemap ++ [V.mkOk url depth (w.info url) s.now,
            V.mkErr url depth (w.errmsg url) (s.now + 1)],
          s.visits ++ [url], s.childCounts, s.now + 2⟩
    else
      ⟨url :: s.visited, s.sitemap ++ [V.mkErr url depth (w.errmsg url) s.now],
        s.visits ++ [url], s.childCounts, s.now + 1⟩

/-- The static.py variant: plain records, no child cap (the loop at
lines 184-187 iterates over all extracted links). -/
def staticVariant : Variant where
  mkOk := staticOkRec
  mkErr := staticErrRec
  pick := fun _ links => links
  getLinks := fun w b u => extract_links_comprehensive (w.rawLinks u) b

/-- The dynamic.py variant: records with `hasContent`/`timestamp`, the
visited prefilter of line 303 and the `[:10]` cap of line 308. -/
def spaVariant : Variant where
  mkOk := spaOkRec
  mkErr := spaErrRec
  pick := fun vis links => (spa_unique_links vis links).take 10
  getLinks := fun w b u => extract_spa_links (w.rawLinks u) (w.routeMatches u) b

/-- static.py `crawl(context, base_url, current_url, depth, max_depth)`. -/
def crawl (w : World) (base_url : Url) (max_depth : Nat) (current_url : Url)
    (depth : Nat) (s : CrawlState) : CrawlState :=
  crawlGen staticVariant w base_url max_depth (max_depth + 1 - depth) current_url depth s

/-- dynamic.py `crawl_spa(context, base_url, current_url, depth, max_depth)`. -/
def crawl_spa (w : World) (base_url : Url) (max_depth : Nat) (current_url : Url)
    (depth : Nat) (s : CrawlState) : CrawlState :=
  crawlGen spaVariant w base_url max_depth (max_depth + 1 - depth) current_url depth s

/-- static.py `main`: derive the base origin with `urlparse` and crawl
the start URL at depth 0 from the empty module state. -/
def static_main (w : World) (start_url : Url) (max_depth : Nat) : CrawlState :=
  crawl w (urlOrigin start_url) max_depth start_url 0 initState

/-- dynamic.py `main`. -/
def spa_main (w : World) (start_url : Url) (max_depth : Nat) : CrawlState :=
  crawl_spa w (urlOrigin start_url) max_depth start_url 0 initState

/-- `1 + k + k^2 + ... + k^(n-1)`: the visit budget of a depth-bounded
tree with branching factor `k`. -/
def geomSum (k : Nat) : Nat → Nat
  | 0 => 0
  | n + 1 => 1 + k * geomSum k n

/-- How many sitemap records carry the URL `u`. -/
def recCount (u : Url) (l : List PageRecord) : Nat :=
  l.countP (fun r => decide (r.url = u))

/-- How many records one proceeding visit of `u` appends: one success
record plus, when link extraction then fails, one error record; or a
single error record when the visit itself fails. -/
def visitCost (w : World) (u : Url) : Nat :=
  if w.visitOk u then (if w.extractOk u then 1 else 2) else 1

/-- Fold a transitive relation along a `List.foldl` whose step always
relates input to output. -/
theorem foldl_rel {α β : Type _} (R : β → β → Prop) (f : β → α → β)
    (hrefl : ∀ x, R x x) (htrans : ∀ x y z : β, R x y → R y z → R x z)
    (hstep : ∀ x a, R x (f x a)) : ∀ (l : List α) (x : β), R x (List.foldl f x l) := by
  intro l
  induction l with
  | nil => intro x; exact hrefl x
  | cons a t ih =>
    intro x
    rw [List.foldl_cons]
    exact htrans _ _ _ (hstep x a) (ih (f x a))

/-- A crawl call on a URL already in the visited set is a no-op
(the first disjunct of the source's guard). -/
theorem crawlGen_noop (V : Variant) (w : World) (b : Url) (m fuel : Nat) (url : Url)
    (depth : Nat) (s : CrawlState) (h : url ∈ s.visited) :
    crawlGen V w b m fuel url depth s = s := by
  cases fuel with
  | zero => rfl
  | succ f => rw [crawlGen, if_pos (Or.inl h)]

/-- The visited set only grows. -/
theorem crawlGen_visited_mono (V : Variant) (w : World) (b : Url) (m : Nat) :
    ∀ fuel url depth s u, u ∈ s.visited → u ∈ (crawlGen V w b m fuel url depth s).visited := by
  intro fuel
  induction fuel with
  | zero => intro url depth s u hu; exact hu
  | succ f ih =>
    intro url depth s u hu
    rw [crawlGen]
    split
    · exact hu
    · split
      · split
        · refine foldl_rel (fun (x y : CrawlState) => ∀ v, v ∈ x.visited → v ∈ y.visited) _
            (fun x v h => h) (fun x y z h1 h2 v hv => h2 v (h1 v hv))
            (fun x a => ?_) _ _ u (List.mem_cons_of_mem _ hu)
          intro v hv
          split
          · exact ih _ _ _ v hv
          · exact hv
        · exact List.mem_cons_of_mem _ hu
      · exact List.mem_cons_of_mem _ hu

/-- Invariant tying the ghost visit log to the visited set: the log has
no duplicates and logs exactly the visited URLs. -/
def GoodV (s : CrawlState) : Prop :=
  s.visits.Nodup ∧ ∀ u : Url, u ∈ s.visits ↔ u ∈ s.visited

/-- A crawl call preserves `GoodV`: the page visitor runs only for URLs
not yet in the visited set, which are inserted at the same moment. -/
theorem crawlGen_goodV (V : Variant) (w : World) (b : Url) (m : Nat) :
    ∀ fuel url depth s, GoodV s → GoodV (crawlGen V w b m fuel url depth s) := by
  intro fuel
  induction fuel with
  | zero => intro url depth s hs; exact hs
  | succ f ih =>
    intro url depth s hs
    rw [crawlGen]
    split
    · exact hs
    · rename_i hguard
      have hnv : url ∉ s.visited := fun h => hguard (Or.inl h)
      have hs1 : GoodV { s with visited := url :: s.visited, visits := s.visits ++ [url] } := by
        constructor
        · refine List.Nodup.append hs.1 (List.nodup_singleton url) ?_
          intro a ha hb
          rw [List.mem_singleton] at hb
          subst hb
          exact hnv ((hs.2 a).1 ha)
        · intro u
          simp only [List.mem_append, List.mem_singleton, List.mem_cons]
          rw [hs.2 u]
          tauto
      split
      · split
        · refine foldl_rel (fun (x y : CrawlState) => GoodV x → GoodV y) _
            (fun x h => h) (fun x y z h1 h2 h => h2 (h1 h)) (fun x a => ?_) _ _ ?_
          · intro h
            split
            · exact ih _ _ _ h
            · exact h
          · exact hs1
        · exact hs1
      · exact hs1

/-- A call beyond the depth bound does nothing, whatever the fuel. -/
theorem crawlGen_depth_exceeded (V : Variant) (w : World) (b : Url) (m fuel : Nat)
    (url : Url) (depth : Nat) (s : CrawlState) (h : m < depth) :
    crawlGen V w b m fuel url depth s = s := by
  cases fuel with
  | zero => rfl
  | succ f => rw [crawlGen, if_pos (Or.inr (Or.inr h))]

/-- `List.foldl` only depends on the step function's values on the list. -/
theorem foldl_congr_fn {A B : Type _} (f g : B → A → B) :
    ∀ (l : List A) (x : B), (∀ a ∈ l, ∀ y, f y a = g y a) →
      List.foldl f x l = List.foldl g x l := by
  intro l
  induction l with
  | nil => intro x _; rfl
  | cons a t ih =>
    intro x h
    rw [List.foldl_cons, List.foldl_cons, h a (List.mem_cons_self a t)]
    exact ih _ (fun a2 ha2 y => h a2 (List.mem_cons_of_mem a ha2) y)

/-- The fuel is irrelevant as soon as it covers `max_depth + 1 - depth`:
the source's own depth guard, not the fuel, stops the recursion.  This is
what makes the fuel-based embedding exact. -/
theorem crawlGen_fuel_irrel (V : Variant) (w : World) (b : Url) (m : Nat) :
    ∀ f g url depth s, m + 1 - depth ≤ f → m + 1 - depth ≤ g →
      crawlGen V w b m f url depth s = crawlGen V w b m g url depth s := by
  intro f
  induction f with
  | zero =>
    intro g url depth s hf _
    have hdm : m < depth := by omega
    rw [crawlGen_depth_exceeded V w b m 0 url depth s hdm,
      crawlGen_depth_exceeded V w b m g url depth s hdm]
  | succ f2 ih =>
    intro g url depth s hf hg
    by_cases hdm : m < depth
    · rw [crawlGen_depth_exceeded V w b m (f2 + 1) url depth s hdm,
        crawlGen_depth_exceeded V w b m g url depth s hdm]
    · obtain ⟨g2, rfl⟩ : ∃ g2, g = g2 + 1 := ⟨g - 1, by omega⟩
      rw [crawlGen, crawlGen]
      split
      · rfl
      · split
        · split
          · refine foldl_congr_fn _ _ _ _ ?_
            intro a _ y
            split
            · exact ih g2 a (depth + 1) y (by omega) (by omega)
            · rfl
          · rfl
        · rfl

/-- The record builders of both variants stamp the visited URL and the
visit depth into the record. -/
structure VariantLawful (V : Variant) : Prop where
  okUrl : ∀ u d i n, (V.mkOk u d i n).url = u
  okDepth : ∀ u d i n, (V.mkOk u d i n).depth = d
  errUrl : ∀ u d e n, (V.mkErr u d e n).url = u
  errDepth : ∀ u d e n, (V.mkErr u d e n).depth = d

theorem staticVariant_lawful : VariantLawful staticVariant :=
  ⟨fun _ _ _ _ => rfl, fun _ _ _ _ => rfl, fun _ _ _ _ => rfl, fun _ _ _ _ => rfl⟩

theorem spaVariant_lawful : VariantLawful spaVariant :=
  ⟨fun _ _ _ _ => rfl, fun _ _ _ _ => rfl, fun _ _ _ _ => rfl, fun _ _ _ _ => rfl⟩

theorem bool_eq_true_of_ne_false {x : Bool} (h : ¬ x = false) : x = true := by
  cases x
  · exact absurd rfl h
  · rfl

/-- Every record a crawl call appends satisfies the record-shape
predicate `P`, is for a URL that was unvisited and in scope, and carries
a depth between the call depth and the bound; a new record for the
call's own URL carries exactly the call depth. -/
theorem crawlGen_sitemap (V : Variant) (w : World) (b : Url) (m : Nat)
    (hV : VariantLawful V) (P : PageRecord → Prop)
    (hPok : ∀ u d n, P (V.mkOk u d (w.info u) n))
    (hPerr : ∀ u d n, P (V.mkErr u d (w.errmsg u) n)) :
    ∀ fuel url depth s, ∃ L, (crawlGen V w b m fuel url depth s).sitemap = s.sitemap ++ L ∧
      ∀ r ∈ L, P r ∧ r.url ∉ s.visited ∧ depth ≤ r.depth ∧ r.depth ≤ m ∧
        startswith r.url b = true ∧ (r.url = url → r.depth = depth) := by
  intro fuel
  induction fuel with
  | zero =>
    intro url depth s
    exact ⟨[], (List.append_nil _).symm, fun r hr => absurd hr (List.not_mem_nil r)⟩
  | succ f ih =>
    intro url depth s
    rw [crawlGen]
    split
    · exact ⟨[], (List.append_nil _).symm, fun r hr => absurd hr (List.not_mem_nil r)⟩
    · rename_i hguard
      push_neg at hguard
      obtain ⟨hnvis, hswne, hdm⟩ := hguard
      have hsw : startswith url b = true := bool_eq_true_of_ne_false hswne
      split
      · split
        · rename_i hvok hxok
          have hloop := foldl_rel
            (fun (x y : CrawlState) =>
              (∀ v, v ∈ x.visited → v ∈ y.visited) ∧
              ∃ L, y.sitemap = x.sitemap ++ L ∧ ∀ r ∈ L, P r ∧ r.url ∉ x.visited ∧
                depth + 1 ≤ r.depth ∧ r.depth ≤ m ∧ startswith r.url b = true)
            (fun acc l =>
              if l ∉ acc.visited ∧ pyIn b l = true then
                crawlGen V w b m f l (depth + 1) acc
              else acc)
            (fun x => ⟨fun v h => h, [], (List.append_nil _).symm,
              fun r hr => absurd hr (List.not_mem_nil r)⟩)
            (fun x y z h1 h2 => by
              obtain ⟨m1, L1, e1, p1⟩ := h1
              obtain ⟨m2, L2, e2, p2⟩ := h2
              refine ⟨fun v h => m2 v (m1 v h), L1 ++ L2, ?_, ?_⟩
              · rw [e2, e1, List.append_assoc]
              · intro r hr
                rcases List.mem_append.1 hr with h | h
                · exact p1 r h
                · obtain ⟨q1, q2, q3, q4, q5⟩ := p2 r h
                  exact ⟨q1, fun hx => q2 (m1 _ hx), q3, q4, q5⟩)
            (fun x l => by
              dsimp only
              split
              · constructor
                · intro v hv
                  exact crawlGen_visited_mono V w b m f l (depth + 1) x v hv
                · obtain ⟨L, hL, hp⟩ := ih l (depth + 1) x
                  exact ⟨L, hL, fun r hr => ⟨(hp r hr).1, (hp r hr).2.1, (hp r hr).2.2.1,
                    (hp r hr).2.2.2.1, (hp r hr).2.2.2.2.1⟩⟩
              · exact ⟨fun v h => h, [], (List.append_nil _).symm,
                  fun r hr => absurd hr (List.not_mem_nil r)⟩)
            (V.pick (url :: s.visited) (V.getLinks w b url))
            ⟨url :: s.visited, s.sitemap ++ [V.mkOk url depth (w.info url) s.now],
              s.visits ++ [url],
              s.childCounts ++ [(V.pick (url :: s.visited) (V.getLinks w b url)).length],
              s.now + 1⟩
          obtain ⟨hmono, L, hL, hp⟩ := hloop
          refine ⟨V.mkOk url depth (w.info url) s.now :: L, ?_, ?_⟩
          · rw [hL]
            simp [List.append_assoc]
          · intro r hr
            rcases List.mem_cons.1 hr with h | h
            · subst h
              refine ⟨hPok url depth s.now, ?_, ?_, ?_, ?_, ?_⟩
              · rw [hV.okUrl]; exact hnvis
              · rw [hV.okDepth]
              · rw [hV.okDepth]; exact hdm
              · rw [hV.okUrl]; exact hsw
              · intro _; rw [hV.okDepth]
            · obtain ⟨q1, q2, q3, q4, q5⟩ := hp r h
              have hne : r.url ≠ url := by
                intro he
                exact q2 (by rw [he]; exact List.mem_cons_self url s.visited)
              have hnv2 : r.url ∉ s.visited := fun hx => q2 (List.mem_cons_of_mem _ hx)
              exact ⟨q1, hnv2, Nat.le_of_succ_le q3, q4, q5, fun he => absurd he hne⟩
        · rename_i hvok hxne
          refine ⟨[V.mkOk url depth (w.info url) s.now,
            V.mkErr url depth (w.errmsg url) (s.now + 1)], rfl, ?_⟩
          intro r hr
          rcases List.mem_cons.1 hr with h | h
          · subst h
            exact ⟨hPok url depth s.now, by rw [hV.okUrl]; exact hnvis, by rw [hV.okDepth],
              by rw [hV.okDepth]; exact hdm, by rw [hV.okUrl]; exact hsw,
              fun _ => by rw [hV.okDepth]⟩
          · rw [List.mem_singleton] at h
            subst h
            exact ⟨hPerr url depth (s.now + 1), by rw [hV.errUrl]; exact hnvis,
              by rw [hV.errDepth], by rw [hV.errDepth]; exact hdm,
              by rw [hV.errUrl]; exact hsw, fun _ => by rw [hV.errDepth]⟩
      · refine ⟨[V.mkErr url depth (w.errmsg url) s.now], rfl, ?_⟩
        intro r hr
        rw [List.mem_singleton] at hr
        subst hr
        exact ⟨hPerr url depth s.now, by rw [hV.errUrl]; exact hnvis,
          by rw [hV.errDepth], by rw [hV.errDepth]; exact hdm,
          by rw [hV.errUrl]; exact hsw, fun _ => by rw [hV.errDepth]⟩

theorem recCount_append (u : Url) (l1 l2 : List PageRecord) :
    recCount u (l1 ++ l2) = recCount u l1 + recCount u l2 :=
  List.countP_append _ _ _

theorem recCount_single (u : Url) (r : PageRecord) :
    recCount u [r] = if r.url = u then 1 else 0 := by
  unfold recCount
  rw [List.countP_cons, List.countP_nil]
  by_cases h : r.url = u
  · simp [h]
  · simp [h]

/-- Exact record accounting: a crawl call changes the number of sitemap
records carrying a URL `u` exactly when its call tree is the one that
first visits `u`, and then by exactly `visitCost w u`. -/
theorem crawlGen_count (V : Variant) (w : World) (b : Url) (m : Nat) (hV : VariantLawful V) :
    ∀ fuel url depth s u,
      recCount u (crawlGen V w b m fuel url depth s).sitemap =
        recCount u s.sitemap +
          (if u ∈ (crawlGen V w b m fuel url depth s).visited ∧ u ∉ s.visited
            then visitCost w u else 0) := by
  intro fuel
  induction fuel with
  | zero =>
    intro url depth s u
    have h0 : crawlGen V w b m 0 url depth s = s := rfl
    rw [h0, if_neg (fun h => h.2 h.1)]
    omega
  | succ f ih =>
    intro url depth s u
    rw [crawlGen]
    split
    · rw [if_neg (fun h => h.2 h.1)]
      omega
    · rename_i hguard
      push_neg at hguard
      obtain ⟨hnvis, hswne, hdm⟩ := hguard
      split
      · rename_i hvok
        split
        · rename_i hxok
          have hloop := foldl_rel
            (fun (x y : CrawlState) =>
              (∀ v, v ∈ x.visited → v ∈ y.visited) ∧
              ∀ v, recCount v y.sitemap = recCount v x.sitemap +
                (if v ∈ y.visited ∧ v ∉ x.visited then visitCost w v else 0))
            (fun acc l =>
              if l ∉ acc.visited ∧ pyIn b l = true then
                crawlGen V w b m f l (depth + 1) acc
              else acc)
            (fun x => ⟨fun v h => h, fun v => by rw [if_neg (fun h => h.2 h.1)]; omega⟩)
            (fun x y z h1 h2 => by
              obtain ⟨m1, c1⟩ := h1
              obtain ⟨m2, c2⟩ := h2
              refine ⟨fun v h => m2 v (m1 v h), fun v => ?_⟩
              rw [c2 v, c1 v]
              by_cases hx : v ∈ x.visited
              · rw [if_neg (fun h => h.2 hx), if_neg (fun h => h.2 (m1 v hx)),
                  if_neg (fun h => h.2 hx)]
              · by_cases hy : v ∈ y.visited
                · rw [if_pos ⟨hy, hx⟩, if_neg (fun h => h.2 hy), if_pos ⟨m2 v hy, hx⟩]
                  omega
                · rw [if_neg (fun h => hy h.1)]
                  by_cases hz : v ∈ z.visited
                  · rw [if_pos ⟨hz, hy⟩, if_pos ⟨hz, hx⟩]
                    omega
                  · rw [if_neg (fun h => hz h.1), if_neg (fun h => hz h.1)])
            (fun x l => by
              dsimp only
              split
              · exact ⟨fun v hv => crawlGen_visited_mono V w b m f l (depth + 1) x v hv,
                  fun v => ih l (depth + 1) x v⟩
              · exact ⟨fun v h => h, fun v => by rw [if_neg (fun h => h.2 h.1)]; omega⟩)
            (V.pick (url :: s.visited) (V.getLinks w b url))
            ⟨url :: s.visited, s.sitemap ++ [V.mkOk url depth (w.info url) s.now],
              s.visits ++ [url],
              s.childCounts ++ [(V.pick (url :: s.visited) (V.getLinks w b url)).length],
              s.now + 1⟩
          obtain ⟨hmono, hcnt⟩ := hloop
          rw [hcnt u]
          by_cases hu : u = url
          · subst hu
            have hmem := hmono u (List.mem_cons_self u s.visited)
            simp only [recCount_append, recCount_single, hV.okUrl, List.mem_cons]
            simp [hmem, hnvis, visitCost, hvok, hxok]
          · have hu2 : ¬ (url = u) := fun h => hu h.symm
            simp only [recCount_append, recCount_single, hV.okUrl, List.mem_cons]
            simp [hu, hu2]
        · rename_i hxok
          have hxf : w.extractOk url = false := by
            revert hxok
            cases w.extractOk url
            · intro _; rfl
            · intro h; exact absurd rfl h
          by_cases hu : u = url
          · subst hu
            simp only [recCount, List.countP_append, List.countP_cons, List.countP_nil,
              hV.okUrl, hV.errUrl, List.mem_cons]
            simp [hnvis, visitCost, hvok, hxf]
          · have hu2 : ¬ (url = u) := fun h => hu h.symm
            simp only [recCount, List.countP_append, List.countP_cons, List.countP_nil,
              hV.okUrl, hV.errUrl, List.mem_cons]
            simp [hu, hu2]
      · rename_i hvok
        have hvf : w.visitOk url = false := by
          revert hvok
          cases w.visitOk url
          · intro _; rfl
          · intro h; exact absurd rfl h
        by_cases hu : u = url
        · subst hu
          simp only [recCount, List.countP_append, List.countP_cons, List.countP_nil,
            hV.errUrl, List.mem_cons]
          simp [hnvis, visitCost, hvf]
        · have hu2 : ¬ (url = u) := fun h => hu h.symm
          simp only [recCount, List.countP_append, List.countP_cons, List.countP_nil,
            hV.errUrl, List.mem_cons]
          simp [hu, hu2]

theorem foldl_length_bound {α : Type _} (f : CrawlState → α → CrawlState) (B : Nat)
    (hstep : ∀ x a, (f x a).visits.length ≤ x.visits.length + B) :
    ∀ (l : List α) (x : CrawlState),
      (List.foldl f x l).visits.length ≤ x.visits.length + l.length * B := by
  intro l
  induction l with
  | nil => intro x; simp
  | cons a t ih =>
    intro x
    rw [List.foldl_cons]
    have h1 := ih (f x a)
    have h2 := hstep x a
    rw [List.length_cons, Nat.succ_mul]
    omega

/-- The visit budget: when every page contributes at most `K` children to
the recursion loop, a call at `depth` performs at most
`geomSum K (m + 1 - depth)` page visits. -/
theorem crawlGen_visits_le (V : Variant) (w : World) (b : Url) (m K : Nat)
    (hPick : ∀ vis u, (V.pick vis (V.getLinks w b u)).length ≤ K) :
    ∀ fuel url depth s, (crawlGen V w b m fuel url depth s).visits.length ≤
      s.visits.length + geomSum K (m + 1 - depth) := by
  intro fuel
  induction fuel with
  | zero => intro url depth s; exact Nat.le_add_right _ _
  | succ f ih =>
    intro url depth s
    rw [crawlGen]
    split
    · exact Nat.le_add_right _ _
    · rename_i hguard
      push_neg at hguard
      obtain ⟨_, _, hdm⟩ := hguard
      have hms : m + 1 - depth = (m - depth) + 1 := by omega
      have hmd : m + 1 - (depth + 1) = m - depth := by omega
      rw [hms]
      split
      · split
        · have hstep : ∀ (x : CrawlState) (l : Url),
              ((fun acc l => if l ∉ acc.visited ∧ pyIn b l = true then
                crawlGen V w b m f l (depth + 1) acc else acc) x l).visits.length ≤
                x.visits.length + geomSum K (m - depth) := by
            intro x l
            dsimp only
            split
            · have h2 := ih l (depth + 1) x
              rw [hmd] at h2
              exact h2
            · exact Nat.le_add_right _ _
          have h1 := foldl_length_bound _ (geomSum K (m - depth)) hstep
            (V.pick (url :: s.visited) (V.getLinks w b url))
            ⟨url :: s.visited, s.sitemap ++ [V.mkOk url depth (w.info url) s.now],
              s.visits ++ [url],
              s.childCounts ++ [(V.pick (url :: s.visited) (V.getLinks w b url)).length],
              s.now + 1⟩
          have h2 : (V.pick (url :: s.visited) (V.getLinks w b url)).length *
              geomSum K (m - depth) ≤ K * geomSum K (m - depth) :=
            Nat.mul_le_mul_right _ (hPick _ _)
          simp only [List.length_append, List.length_cons, List.length_nil] at h1
          simp only [geomSum]
          omega
        · simp only [geomSum, List.length_append, List.length_cons, List.length_nil]
          omega
      · simp only [geomSum, List.length_append, List.length_cons, List.length_nil]
        omega

/-- Every child-list length the loop records is bounded by any bound on
the variant's pick stage. -/
theorem crawlGen_childCounts (V : Variant) (w : World) (b : Url) (m K : Nat)
    (hPick : ∀ vis u, (V.pick vis (V.getLinks w b u)).length ≤ K) :
    ∀ fuel url depth s, (∀ n ∈ s.childCounts, n ≤ K) →
      ∀ n ∈ (crawlGen V w b m fuel url depth s).childCounts, n ≤ K := by
  intro fuel
  induction fuel with
  | zero => intro url depth s hs; exact hs
  | succ f ih =>
    intro url depth s hs
    rw [crawlGen]
    split
    · exact hs
    · split
      · split
        · refine foldl_rel
            (fun (x y : CrawlState) =>
              (∀ n ∈ x.childCounts, n ≤ K) → (∀ n ∈ y.childCounts, n ≤ K)) _
            (fun x h => h) (fun x y z h1 h2 h => h2 (h1 h)) (fun x l => ?_) _ _ ?_
          · intro h
            split
            · exact ih _ _ _ h
            · exact h
          · intro n hn
            rcases List.mem_append.1 hn with h | h
            · exact hs n h
            · rw [List.mem_singleton] at h
              subst h
              exact hPick _ _
        · exact hs
      · exact hs

/-- Characters are never invented by `replace('//', '/')`. -/
theorem mem_replaceDoubleSlash :
    ∀ (s : Url) (c : Char), c ∈ replaceDoubleSlash s → c ∈ s
  | [], _, h => absurd h (List.not_mem_nil _)
  | [c0], c, h => by simpa [replaceDoubleSlash] using h
  | c1 :: c2 :: t, c, h => by
    by_cases hc : c1 = '/' ∧ c2 = '/'
    · rw [replaceDoubleSlash, if_pos hc] at h
      rcases List.mem_cons.1 h with h | h
      · subst h
        exact List.mem_cons.2 (Or.inl hc.1.symm)
      · exact List.mem_cons_of_mem _ (List.mem_cons_of_mem _ (mem_replaceDoubleSlash t c h))
    · rw [replaceDoubleSlash, if_neg hc] at h
      rcases List.mem_cons.1 h with h | h
      · subst h
        exact List.mem_cons_self _ _
      · exact List.mem_cons_of_mem _ (mem_replaceDoubleSlash (c2 :: t) c h)

theorem extract_links_comprehensive_length_le (raws : List Url) (base : Url) :
    (extract_links_comprehensive raws base).length ≤ raws.length := by
  unfold extract_links_comprehensive pySet
  exact le_trans (List.Sublist.length_le (List.dedup_sublist _))
    (List.length_filterMap_le _ _)

/-- One failed visit appends exactly one error record, extracts no links
and visits no descendants: the visit log grows by at most the failing URL
itself. -/
theorem crawlGen_visit_fail (V : Variant) (w : World) (b : Url) (m fuel : Nat)
    (url : Url) (depth : Nat) (s : CrawlState) (h : w.visitOk url = false) :
    (crawlGen V w b m fuel url depth s).visits.length ≤ s.visits.length + 1 := by
  cases fuel with
  | zero => exact Nat.le_succ_of_le (Nat.le_refl _)
  | succ f =>
    rw [crawlGen]
    split
    · omega
    · rw [if_neg (by simp [h])]
      simp

/- Concrete worlds used by the witnesses and counterexamples. -/

/-- The origin page links to `/b` and `/c`; navigation fails on `/b`;
everything else succeeds. -/
def wBC : World where
  visitOk := fun u => !(u == "http://e/b".data)
  extractOk := fun _ => true
  info := fun _ => { title := "T".data, description := "D".data, hasContent := true }
  errmsg := fun _ => "nav fail".data
  rawLinks := fun u => if u == "http://e".data then ["/b".data, "/c".data] else []
  routeMatches := fun _ => []

/-- Every page visit succeeds but every link extraction raises. -/
def wEF : World where
  visitOk := fun _ => true
  extractOk := fun _ => false
  info := fun _ => { title := "T".data, description := "D".data, hasContent := true }
  errmsg := fun _ => "boom".data
  rawLinks := fun _ => []
  routeMatches := fun _ => []

/-- Every page links to the same two children and everything succeeds. -/
def wTwo : World where
  visitOk := fun _ => true
  extractOk := fun _ => true
  info := fun _ => { title := "T".data, description := "D".data, hasContent := true }
  errmsg := fun _ => "x".data
  rawLinks := fun _ => ["/b".data, "/c".data]
  routeMatches := fun _ => []

/-- The origin page harvests a link whose host merely extends the start
host. -/
def wEvil : World where
  visitOk := fun _ => true
  extractOk := fun _ => true
  info := fun _ => { title := "T".data, description := "D".data, hasContent := true }
  errmsg := fun _ => "x".data
  rawLinks := fun u => if u == "http://e".data then ["http://e.vil/x".data] else []
  routeMatches := fun _ => []

/-- The origin page harvests eleven distinct in-scope links. -/
def wEleven : World where
  visitOk := fun _ => true
  extractOk := fun _ => true
  info := fun _ => { title := "T".data, description := "D".data, hasContent := true }
  errmsg := fun _ => "x".data
  rawLinks := fun u =>
    if u == "http://e".data then
      ["/a1".data, "/a2".data, "/a3".data, "/a4".data, "/a5".data, "/a6".data,
        "/a7".data, "/a8".data, "/a9".data, "/b1".data, "/b2".data]
    else []
  routeMatches := fun _ => []

/-- The success record the static crawl of `wBC` emits for the origin. -/
def recE : PageRecord :=
  { url := "http://e".data, title := "T".data, description := "D".data, depth := 0,
    hasContent := none, error := none, timestamp := none }

/-- Claim C1: across a single crawl run the page visitor is invoked at
most once per URL: a crawl call on a URL already in the process-wide
visited set is a no-op (both variants insert the URL before visiting),
and the visit log of a whole run from the empty module state has no
duplicates, even over a cyclic link graph. -/
theorem claim1_visit_at_most_once :
    (∀ (w : World) (b : Url) (m : Nat) (url : Url) (depth : Nat) (s : CrawlState),
      url ∈ s.visited →
        crawl w b m url depth s = s ∧ crawl_spa w b m url depth s = s) ∧
    (∀ (w : World) (start_url : Url) (m : Nat),
      (static_main w start_url m).visits.Nodup ∧ (spa_main w start_url m).visits.Nodup) := by
  constructor
  · intro w b m url depth s h
    exact ⟨crawlGen_noop _ _ _ _ _ _ _ _ h, crawlGen_noop _ _ _ _ _ _ _ _ h⟩
  · intro w start_url m
    have hg : GoodV initState := ⟨List.nodup_nil, fun u => Iff.rfl⟩
    exact ⟨(crawlGen_goodV _ _ _ _ _ _ _ _ hg).1, (crawlGen_goodV _ _ _ _ _ _ _ _ hg).1⟩

theorem claim1_witness :
    crawl wBC ("http://e".data) 1 ("http://e".data) 0
        ⟨["http://e".data], [], [], [], 0⟩ = ⟨["http://e".data], [], [], [], 0⟩ ∧
    crawl_spa wBC ("http://e".data) 1 ("http://e".data) 0
        ⟨["http://e".data], [], [], [], 0⟩ = ⟨["http://e".data], [], [], [], 0⟩ :=
  claim1_visit_at_most_once.1 wBC ("http://e".data) 1 ("http://e".data) 0
    ⟨["http://e".data], [], [], [], 0⟩ (by decide)

/-- Claim C2 counterexample: when the visit of a page succeeds but its
link extraction then raises, both variants append a success record AND an
error record for the same URL, refuting "exactly one record per visited
URL, never both". -/
theorem claim2_counterexample :
    recCount ("http://e".data) (static_main wEF ("http://e".data) 1).sitemap = 2 ∧
    recCount ("http://e".data) (spa_main wEF ("http://e".data) 1).sitemap = 2 :=
  ⟨by decide, by decide⟩

/-- Claim C2 (amended): exact per-URL record accounting over a whole run:
a URL the orchestrator never proceeds with gets no record; a visited URL
gets exactly one record — a success record when visit and extraction
succeed, an error record when the visit fails — except that a successful
visit followed by a failed link extraction appends two records (the
success record and then an error record) for that URL. -/
theorem claim2_amended (w : World) (start_url : Url) (m : Nat) (u : Url) :
    recCount u (static_main w start_url m).sitemap =
      (if u ∈ (static_main w start_url m).visits then visitCost w u else 0) ∧
    recCount u (spa_main w start_url m).sitemap =
      (if u ∈ (spa_main w start_url m).visits then visitCost w u else 0) := by
  simp only [static_main, spa_main, crawl, crawl_spa]
  constructor
  · have hg := crawlGen_goodV staticVariant w (urlOrigin start_url) m (m + 1 - 0)
      start_url 0 initState ⟨List.nodup_nil, fun u => Iff.rfl⟩
    have hc := crawlGen_count staticVariant w (urlOrigin start_url) m
      staticVariant_lawful (m + 1 - 0) start_url 0 initState u
    have h0 : recCount u initState.sitemap = 0 := rfl
    rw [h0, Nat.zero_add] at hc
    have hiff : (u ∈ (crawlGen staticVariant w (urlOrigin start_url) m (m + 1 - 0)
        start_url 0 initState).visited ∧ u ∉ initState.visited) ↔
        u ∈ (crawlGen staticVariant w (urlOrigin start_url) m (m + 1 - 0)
          start_url 0 initState).visits := by
      rw [hg.2 u]
      simp [initState]
    rw [hc, if_congr hiff rfl rfl]
  · have hg := crawlGen_goodV spaVariant w (urlOrigin start_url) m (m + 1 - 0)
      start_url 0 initState ⟨List.nodup_nil, fun u => Iff.rfl⟩
    have hc := crawlGen_count spaVariant w (urlOrigin start_url) m
      spaVariant_lawful (m + 1 - 0) start_url 0 initState u
    have h0 : recCount u initState.sitemap = 0 := rfl
    rw [h0, Nat.zero_add] at hc
    have hiff : (u ∈ (crawlGen spaVariant w (urlOrigin start_url) m (m + 1 - 0)
        start_url 0 initState).visited ∧ u ∉ initState.visited) ↔
        u ∈ (crawlGen spaVariant w (urlOrigin start_url) m (m + 1 - 0)
          start_url 0 initState).visits := by
      rw [hg.2 u]
      simp [initState]
    rw [hc, if_congr hiff rfl rfl]

/-- Claim C3: the crawl is finite on every link graph, cyclic ones
included: when every page harvests at most `K` raw links the static
crawl performs at most `geomSum K (maxDepth + 1)` page visits, and the
SPA crawl at most `geomSum 10 (maxDepth + 1)` thanks to its child cap —
the visited-set insert, the depth bound and the scope filter make the
recursion well-founded (the embedding's fuel is never the limit, see
`crawlGen_fuel_irrel`). -/
theorem claim3_termination (w wSpa : World) (start_url : Url) (m K : Nat)
    (hK : ∀ u, (w.rawLinks u).length ≤ K) :
    (static_main w start_url m).visits.length ≤ geomSum K (m + 1) ∧
    (spa_main wSpa start_url m).visits.length ≤ geomSum 10 (m + 1) := by
  simp only [static_main, spa_main, crawl, crawl_spa]
  constructor
  · have hPick : ∀ vis u,
        (staticVariant.pick vis (staticVariant.getLinks w (urlOrigin start_url) u)).length ≤ K :=
      fun vis u => le_trans (extract_links_comprehensive_length_le _ _) (hK u)
    have h := crawlGen_visits_le staticVariant w (urlOrigin start_url) m K hPick
      (m + 1 - 0) start_url 0 initState
    simpa [initState] using h
  · have hPick : ∀ vis u,
        (spaVariant.pick vis (spaVariant.getLinks wSpa (urlOrigin start_url) u)).length ≤ 10 :=
      fun vis u => List.length_take_le _ _
    have h := crawlGen_visits_le spaVariant wSpa (urlOrigin start_url) m 10 hPick
      (m + 1 - 0) start_url 0 initState
    simpa [initState] using h

theorem claim3_witness :
    (static_main wTwo ("http://e".data) 1).visits.length ≤ geomSum 2 2 ∧
    (spa_main wTwo ("http://e".data) 1).visits.length ≤ geomSum 10 2 :=
  claim3_termination wTwo wTwo ("http://e".data) 1 2 (fun _ => Nat.le_refl 2)

/-- Claim C4 counterexample: with base origin `http://e`, the harvested
link `http://e.vil/x` passes the prefix-based scope checks of both the
extractor and the crawl guard and is recorded, yet its scheme+host
`http://e.vil` differs from the start URL's scheme+host `http://e`. -/
theorem claim4_counterexample :
    ∃ r ∈ (static_main wEvil ("http://e".data) 1).sitemap,
      urlOrigin r.url ≠ urlOrigin ("http://e".data) := by decide

/-- Claim C4 (amended): scope containment as the code enforces it: every
recorded URL has the start URL's `scheme://netloc` string as a prefix
(`current_url.startswith(base_url)`), which admits URLs whose host merely
extends the start host rather than equalling it. -/
theorem claim4_amended (w : World) (start_url : Url) (m : Nat) :
    (∀ r ∈ (static_main w start_url m).sitemap,
      startswith r.url (urlOrigin start_url) = true) ∧
    (∀ r ∈ (spa_main w start_url m).sitemap,
      startswith r.url (urlOrigin start_url) = true) := by
  simp only [static_main, spa_main, crawl, crawl_spa]
  constructor
  · intro r hr
    obtain ⟨L, hL, hp⟩ := crawlGen_sitemap staticVariant w (urlOrigin start_url) m
      staticVariant_lawful (fun _ => True) (fun _ _ _ => trivial) (fun _ _ _ => trivial)
      (m + 1 - 0) start_url 0 initState
    rw [hL] at hr
    simp only [initState, List.nil_append] at hr
    exact (hp r hr).2.2.2.2.1
  · intro r hr
    obtain ⟨L, hL, hp⟩ := crawlGen_sitemap spaVariant w (urlOrigin start_url) m
      spaVariant_lawful (fun _ => True) (fun _ _ _ => trivial) (fun _ _ _ => trivial)
      (m + 1 - 0) start_url 0 initState
    rw [hL] at hr
    simp only [initState, List.nil_append] at hr
    exact (hp r hr).2.2.2.2.1

theorem claim4_witness :
    recE ∈ (static_main wBC ("http://e".data) 2).sitemap ∧
    startswith recE.url (urlOrigin ("http://e".data)) = true :=
  ⟨by decide, (claim4_amended wBC ("http://e".data) 2).1 recE (by decide)⟩

/-- Claim C5 counterexample: in the SPA variant a fragment-bearing
candidate is discarded outright — `/about#team` yields no candidate at
all instead of collapsing into `http://e/about` — and trailing-slash
variants stay two distinct candidates. -/
theorem claim5_counterexample :
    extract_spa_links ["/about#team".data] [] ("http://e".data) = [] ∧
    (extract_spa_links ["/a".data, "/a/".data] [] ("http://e".data)).length = 2 :=
  ⟨by decide, by decide⟩

/-- Claim C5 (amended): in the STATIC variant canonicalization is a
projection: the extractor's output is duplicate-free, any two raw links
normalizing (fragment stripped, trailing slash stripped, query kept) to
the same canonical URL contribute that one candidate, and concretely
`/about#team`, `/about/` and `/about` all collapse to `http://e/about`;
the SPA variant instead discards fragment- or query-bearing candidates
entirely and keeps trailing-slash variants distinct. -/
theorem claim5_amended :
    (∀ (base : Url) (raws : List Url), (extract_links_comprehensive raws base).Nodup) ∧
    (∀ (base r1 : Url) (raws : List Url) (u : Url), normalize_link base r1 = some u →
      r1 ∈ raws → u ∈ extract_links_comprehensive raws base) ∧
    normalize_link ("http://e".data) ("/about#team".data) = some ("http://e/about".data) ∧
    normalize_link ("http://e".data) ("/about/".data) = some ("http://e/about".data) ∧
    normalize_link ("http://e".data) ("/about".data) = some ("http://e/about".data) := by
  refine ⟨?_, ?_, by decide, by decide, by decide⟩
  · intro base raws
    exact List.nodup_dedup _
  · intro base r1 raws u h1 h2
    unfold extract_links_comprehensive pySet
    exact List.mem_dedup.2 (List.mem_filterMap.2 ⟨r1, h2, h1⟩)

theorem claim5_witness :
    "http://e/about".data ∈
      extract_links_comprehensive ["/about#team".data, "/about/".data] ("http://e".data) :=
  claim5_amended.2.1 ("http://e".data) ("/about#team".data)
    ["/about#team".data, "/about/".data] ("http://e/about".data) (by decide) (by decide)

/-- Claim C6: every sitemap record of a run satisfies
`depth ≤ maxDepth`, and any record whose URL is the start URL carries
depth 0 (the start URL is visited at depth 0 before any recursion, so no
deeper call can ever record it again), for both variants. -/
theorem claim6_depth_bound (w : World) (start_url : Url) (m : Nat) :
    (∀ r ∈ (static_main w start_url m).sitemap,
      r.depth ≤ m ∧ (r.url = start_url → r.depth = 0)) ∧
    (∀ r ∈ (spa_main w start_url m).sitemap,
      r.depth ≤ m ∧ (r.url = start_url → r.depth = 0)) := by
  simp only [static_main, spa_main, crawl, crawl_spa]
  constructor
  · intro r hr
    obtain ⟨L, hL, hp⟩ := crawlGen_sitemap staticVariant w (urlOrigin start_url) m
      staticVariant_lawful (fun _ => True) (fun _ _ _ => trivial) (fun _ _ _ => trivial)
      (m + 1 - 0) start_url 0 initState
    rw [hL] at hr
    simp only [initState, List.nil_append] at hr
    exact ⟨(hp r hr).2.2.2.1, (hp r hr).2.2.2.2.2⟩
  · intro r hr
    obtain ⟨L, hL, hp⟩ := crawlGen_sitemap spaVariant w (urlOrigin start_url) m
      spaVariant_lawful (fun _ => True) (fun _ _ _ => trivial) (fun _ _ _ => trivial)
      (m + 1 - 0) start_url 0 initState
    rw [hL] at hr
    simp only [initState, List.nil_append] at hr
    exact ⟨(hp r hr).2.2.2.1, (hp r hr).2.2.2.2.2⟩

theorem claim6_witness :
    recE ∈ (static_main wBC ("http://e".data) 2).sitemap ∧
    recE.depth ≤ 2 ∧ (recE.url = "http://e".data → recE.depth = 0) :=
  ⟨by decide, (claim6_depth_bound wBC ("http://e".data) 2).1 recE (by decide)⟩

/-- Claim C7 counterexample: the static variant has no per-page child
cap: a page with eleven extracted candidates gets all eleven iterated
(`childCounts` records the loop's list length) and all eleven visited
(12 visits in total including the origin), contradicting "at most 10
children per page". -/
theorem claim7_counterexample :
    11 ∈ (static_main wEleven ("http://e".data) 1).childCounts ∧
    (static_main wEleven ("http://e".data) 1).visits.length = 12 :=
  ⟨by decide, by decide⟩

/-- Claim C7 (amended): only the SPA variant caps the children explored
per page at 10 (`unique_links[:10]`); the static variant iterates over
every extracted candidate. -/
theorem claim7_amended (w : World) (start_url : Url) (m : Nat) :
    ∀ n ∈ (spa_main w start_url m).childCounts, n ≤ 10 := by
  simp only [spa_main, crawl_spa]
  have hPick : ∀ vis u,
      (spaVariant.pick vis (spaVariant.getLinks w (urlOrigin start_url) u)).length ≤ 10 :=
    fun vis u => List.length_take_le _ _
  exact crawlGen_childCounts spaVariant w (urlOrigin start_url) m 10 hPick
    (m + 1 - 0) start_url 0 initState (fun n hn => absurd hn (List.not_mem_nil n))

theorem claim7_witness :
    10 ∈ (spa_main wEleven ("http://e".data) 1).childCounts ∧ 10 ≤ 10 :=
  ⟨by decide, claim7_amended wEleven ("http://e".data) 1 10 (by decide)⟩

/-- Claim C8: error isolation.  Concretely: the origin page `http://e`
links to `/b` (whose navigation fails) and `/c`; both variants produce
exactly an origin success record, an error record for `/b` carrying the
failure description, and a success record for `/c` — the failure of `/b`
neither aborts the run nor prevents the sibling `/c`.  Generally: a
crawl call on a URL whose visit fails contributes no descendants (its
visit log grows by at most the failing URL itself, so the failed page
contributes no links). -/
theorem claim8_error_isolation :
    (static_main wBC ("http://e".data) 2).sitemap =
      [ { url := "http://e".data, title := "T".data, description := "D".data, depth := 0,
          hasContent := none, error := none, timestamp := none },
        { url := "http://e/b".data, title := "Error loading page".data,
          description := "nav fail".data, depth := 1,
          hasContent := none, error := some true, timestamp := none },
        { url := "http://e/c".data, title := "T".data, description := "D".data, depth := 1,
          hasContent := none, error := none, timestamp := none } ] ∧
    (spa_main wBC ("http://e".data) 2).sitemap =
      [ { url := "http://e".data, title := "T".data, description := "D".data, depth := 0,
          hasContent := some true, error := none, timestamp := some 0 },
        { url := "http://e/b".data, title := "Error loading page".data,
          description := "nav fail".data, depth := 1,
          hasContent := none, error := some true, timestamp := some 1 },
        { url := "http://e/c".data, title := "T".data, description := "D".data, depth := 1,
          hasContent := some true, error := none, timestamp := some 2 } ] ∧
    (∀ (w : World) (b : Url) (m : Nat) (url : Url) (depth : Nat) (s : CrawlState),
      w.visitOk url = false →
        (crawl w b m url depth s).visits.length ≤ s.visits.length + 1 ∧
        (crawl_spa w b m url depth s).visits.length ≤ s.visits.length + 1) := by
  refine ⟨by decide, by decide, ?_⟩
  intro w b m url depth s h
  exact ⟨crawlGen_visit_fail _ _ _ _ _ _ _ _ h, crawlGen_visit_fail _ _ _ _ _ _ _ _ h⟩

theorem claim8_witness :
    (crawl wBC ("http://e".data) 2 ("http://e/b".data) 0 initState).visits.length ≤
      initState.visits.length + 1 ∧
    (crawl_spa wBC ("http://e".data) 2 ("http://e/b".data) 0 initState).visits.length ≤
      initState.visits.length + 1 :=
  claim8_error_isolation.2.2 wBC ("http://e".data) 2 ("http://e/b".data) 0 initState
    (by decide)

/-- Claim C9 counterexample: static.py records carry no `timestamp` key
at all (and no `hasContent`), refuting "timestamp is present on every
record". -/
theorem claim9_counterexample :
    ∃ r ∈ (static_main wBC ("http://e".data) 2).sitemap, r.timestamp = none := by
  decide

/-- The record shape dynamic.py emits: a timestamp on every record, the
`error` key only (as `True`) on error records, and `hasContent` exactly
on success records. -/
def spaRecordSchema (r : PageRecord) : Prop :=
  r.timestamp.isSome = true ∧ (r.error = none ∨ r.error = some true) ∧
    (r.error = none ↔ r.hasContent.isSome = true)

/-- The record shape static.py emits: no `timestamp`, no `hasContent`,
the `error` key only (as `True`) on error records. -/
def staticRecordSchema (r : PageRecord) : Prop :=
  r.timestamp = none ∧ r.hasContent = none ∧ (r.error = none ∨ r.error = some true)

/-- Claim C9 (amended): every record of the SPA variant carries a
timestamp, carries `error` (always `True`) exactly on error records and
`hasContent` exactly on success records; the static variant's records
carry neither `timestamp` nor `hasContent` (`url`, `title`,
`description` are strings and `depth` a natural number by construction
in both variants). -/
theorem claim9_amended (w : World) (start_url : Url) (m : Nat) :
    (∀ r ∈ (static_main w start_url m).sitemap, staticRecordSchema r) ∧
    (∀ r ∈ (spa_main w start_url m).sitemap, spaRecordSchema r) := by
  simp only [static_main, spa_main, crawl, crawl_spa]
  constructor
  · intro r hr
    obtain ⟨L, hL, hp⟩ := crawlGen_sitemap staticVariant w (urlOrigin start_url) m
      staticVariant_lawful staticRecordSchema
      (fun u d n => by simp [staticVariant, staticOkRec, staticRecordSchema])
      (fun u d n => by simp [staticVariant, staticErrRec, staticRecordSchema])
      (m + 1 - 0) start_url 0 initState
    rw [hL] at hr
    simp only [initState, List.nil_append] at hr
    exact (hp r hr).1
  · intro r hr
    obtain ⟨L, hL, hp⟩ := crawlGen_sitemap spaVariant w (urlOrigin start_url) m
      spaVariant_lawful spaRecordSchema
      (fun u d n => by simp [spaVariant, spaOkRec, spaRecordSchema])
      (fun u d n => by simp [spaVariant, spaErrRec, spaRecordSchema])
      (m + 1 - 0) start_url 0 initState
    rw [hL] at hr
    simp only [initState, List.nil_append] at hr
    exact (hp r hr).1

theorem claim9_witness :
    recE ∈ (static_main wBC ("http://e".data) 2).sitemap ∧ staticRecordSchema recE :=
  ⟨by decide, (claim9_amended wBC ("http://e".data) 2).1 recE (by decide)⟩

/-- Claim C10: every URL `extract_spa_links` returns contains neither a
`?` nor a `#`: the in-page filter drops any absolutized candidate
containing either character outright (it is not stripped to a clean
form), and the regex route candidates are built from base origin and
match text that contain neither (`re.findall`'s capture class is word
characters, dashes and slashes). -/
theorem claim10_spa_drops_query_and_fragment (harvest mts : List Url) (base : Url)
    (hb : ¬ '#' ∈ base ∧ ¬ '?' ∈ base)
    (hm : ∀ mt ∈ mts, ¬ '#' ∈ mt ∧ ¬ '?' ∈ mt) :
    ∀ l ∈ extract_spa_links harvest mts base, ¬ '#' ∈ l ∧ ¬ '?' ∈ l := by
  intro l hl
  unfold extract_spa_links pySet at hl
  rw [List.mem_dedup, List.mem_append] at hl
  rcases hl with hl | hl
  · unfold extract_spa_links_js pySet at hl
    rw [List.mem_dedup, List.mem_filter] at hl
    have hf := hl.2
    simp only [spaLinkFilter, Bool.and_eq_true, Bool.not_eq_true',
      decide_eq_false_iff_not] at hf
    exact ⟨hf.1.1.1.2, hf.1.1.2⟩
  · unfold spa_route_candidates at hl
    rw [List.mem_filterMap] at hl
    obtain ⟨mt, hmt, heq⟩ := hl
    split_ifs at heq with h1 h2
    · rw [Option.some.injEq] at heq
      subst heq
      constructor
      · intro hc
        rcases List.mem_append.1 (mem_replaceDoubleSlash _ _ hc) with h | h
        · exact hb.1 h
        · rcases List.mem_cons.1 h with h | h
          · exact absurd h (by decide)
          · exact (hm mt hmt).1 h
      · intro hc
        rcases List.mem_append.1 (mem_replaceDoubleSlash _ _ hc) with h | h
        · exact hb.2 h
        · rcases List.mem_cons.1 h with h | h
          · exact absurd h (by decide)
          · exact (hm mt hmt).2 h

theorem claim10_witness :
    ¬ '#' ∈ ("http://e/c".data : Url) ∧ ¬ '?' ∈ ("http://e/c".data : Url) :=
  claim10_spa_drops_query_and_fragment ["/a?q=1".data, "/b#f".data, "/c".data] []
    ("http://e".data) (by decide) (by decide) ("http://e/c".data) (by decide)
